import Mathlib

/-!
Verification of the ingestion and upsert pipeline of `data_ingestion.py`
(energy time-series project).  The Python functions are shallowly embedded:

* Python values that flow through the JSON layer are modelled by `PyVal`
  (the `list` constructor covers both Python `list` and `tuple`, which the
  source treats identically via `isinstance(x, (list, tuple))`).
* HTTP effects are modelled by an oracle `HttpOutcome` describing what the
  network did for one call; uncaught Python exceptions are modelled by
  `Except PyErr`.
* The database table `energy_timeseries` is modelled as a list of rows in
  physical order; the composite UNIQUE constraint and the
  `INSERT ... ON CONFLICT ... DO UPDATE` statement are modelled by
  `upsertRow`, which updates the row holding the conflicting key in place
  (overwriting `value` and `filter_label`, as the SQL does) and otherwise
  appends a fresh row.
* Transaction boundaries (`conn.commit()`) are modelled by an explicit
  statement trace (`Stmt`) over a state holding the committed table and the
  current transaction view.
-/

namespace EnergyIngestion

/-- Python values as they appear after `response.json()` decoding and inside
raw series payloads.  `list` models both Python lists and tuples; `dict`
models JSON objects as association lists with string keys; `pynone` models
Python `None` (a null measurement). -/
inductive PyVal where
  | int : Int → PyVal
  | float : Rat → PyVal
  | str : String → PyVal
  | pynone : PyVal
  | bool : Bool → PyVal
  | list : List PyVal → PyVal
  | dict : List (String × PyVal) → PyVal

/-- Uncaught Python exceptions that the fetchers can let escape. -/
inductive PyErr where
  | transport
  | jsonDecode
  | attributeError
deriving Repr, DecidableEq

/-- Outcome of one `requests.get` call, as seen by the surrounding code:
either the request succeeded (2xx) and the body decoded to `body`, or
`raise_for_status()` raised `requests.exceptions.HTTPError` (4xx/5xx), or
`requests.get` itself raised a transport-level exception (connection error,
timeout, invalid schema — none of which are `HTTPError`), or the body was
not valid JSON so `response.json()` raised. -/
inductive HttpOutcome where
  | success : PyVal → HttpOutcome
  | httpError : HttpOutcome
  | transportFailure : HttpOutcome
  | badJson : HttpOutcome

/-- Python `d.get(k, default)` on a dict modelled as an association list. -/
def pyGet (d : List (String × PyVal)) (k : String) (dflt : PyVal) : PyVal :=
  match d.find? (fun kv => kv.fst == k) with
  | some kv => kv.snd
  | none => dflt

/-- Shared tail of `fetch_timestamps` and `fetch_timeseries` (lines 38-39 and
54-55): `return data if isinstance(data, list) else data.get(field, [])`.
Calling `.get` on a body that is neither a list nor a dict raises
`AttributeError`. -/
def extractField (fld : String) (data : PyVal) : Except PyErr PyVal :=
  match data with
  | PyVal.list xs => Except.ok (PyVal.list xs)
  | PyVal.dict d => Except.ok (pyGet d fld (PyVal.list []))
  | _ => Except.error PyErr.attributeError

/-- Embedding of `fetch_timestamps` (lines 28-39), parameterised by the HTTP
oracle.  The `try` block covers `requests.get` and `raise_for_status` and
catches only `requests.exceptions.HTTPError`, returning `[]`; a transport
exception from `requests.get` is not an `HTTPError` and escapes, and
`response.json()` sits outside the `try`, so a JSON decode error escapes
as well. -/
def fetch_timestamps (net : HttpOutcome) : Except PyErr PyVal :=
  match net with
  | HttpOutcome.success body => extractField "timestamps" body
  | HttpOutcome.httpError => Except.ok (PyVal.list [])
  | HttpOutcome.transportFailure => Except.error PyErr.transport
  | HttpOutcome.badJson => Except.error PyErr.jsonDecode

/-- Embedding of `fetch_timeseries` (lines 41-55): identical error handling
to `fetch_timestamps`, keyed to the "series" field. -/
def fetch_timeseries (net : HttpOutcome) : Except PyErr PyVal :=
  match net with
  | HttpOutcome.success body => extractField "series" body
  | HttpOutcome.httpError => Except.ok (PyVal.list [])
  | HttpOutcome.transportFailure => Except.error PyErr.transport
  | HttpOutcome.badJson => Except.error PyErr.jsonDecode

/-- URL built by `fetch_timestamps` (line 30). -/
def timestamp_url (filter_id : Int) (region resolution : String) : String :=
  "https://smard.api.proxy.bund.dev/app/chart_data/" ++ toString filter_id ++
    "/" ++ region ++ "/index_" ++ resolution ++ ".json"

/-- URL built by `fetch_timeseries` (lines 43-46), transcribed exactly as the
source writes it — including the doubled letter in the scheme of its first
f-string fragment. -/
def timeseries_url (filter_id : Int) (region resolution : String)
    (timestamp : Int) : String :=
  "hhttps://smard.api.proxy.bund.dev/app/chart_data/" ++ toString filter_id ++
    "/" ++ region ++ "/" ++ toString filter_id ++ "_" ++ region ++ "_" ++
    resolution ++ "_" ++ toString timestamp ++ ".json"

/-- One normalized record produced by `prepare_data`: the dictionary
with keys "timestamp" and "value". -/
structure PreparedEntry where
  timestamp : PyVal
  value : PyVal

/-- Embedding of `prepare_data` (lines 57-72): iterate over the raw entries,
appending a record for each entry that is a list/tuple of length at least 2
(taking elements 0 and 1), and skipping (with a printed diagnostic) every
other entry. -/
def prepare_data (raw_data : List PyVal) : List PreparedEntry :=
  raw_data.foldl
    (fun prepared p =>
      match p with
      | PyVal.list (a :: b :: _) => prepared ++ [PreparedEntry.mk a b]
      | _ => prepared)
    []

/-- Timestamp selection performed inside `main` (lines 148-158).
The list `timestamps` is the fetched index; the surrounding loop only
reaches this code when it is non-empty.  Python indexing `timestamps[-1]`
on an empty list raises, which is modelled by `Option` (`none` = IndexError).
The guard `if specific_timestamp:` is Python truthiness: it is false both
when the config key is absent (`None`) and when it holds the integer 0. -/
def select_timestamps (timestamp_mode : String) (specific_timestamp : Option Int)
    (timestamps : List Int) : Option (List Int) :=
  if timestamp_mode = "all" then
    some timestamps
  else if timestamp_mode = "specific" then
    match specific_timestamp with
    | some v =>
        if v = 0 then (timestamps.getLast?).map (fun tl => [tl])
        else some [v]
    | none => (timestamps.getLast?).map (fun tl => [tl])
  else
    (timestamps.getLast?).map (fun tl => [tl])

/-- Loop body of `wait_for_db` (lines 17-24), parameterised by an oracle
`probe` giving the outcome of each 1-based connection attempt (`true` =
`psycopg2.connect` succeeds, `false` = it raises `OperationalError`).
Returns the boolean result together with the number of attempts made. -/
def wait_for_db_loop (probe : Nat → Bool) (attempt remaining : Nat) : Bool × Nat :=
  match remaining with
  | 0 => (false, 0)
  | Nat.succ n =>
      if probe attempt then (true, 1)
      else
        let r := wait_for_db_loop probe (attempt + 1) n
        (r.fst, r.snd + 1)

/-- Embedding of `wait_for_db` (lines 12-26): attempts run from 1 to
`retries`; the first successful probe returns `true` immediately, and
exhausting the range returns `false`. -/
def wait_for_db (probe : Nat → Bool) (retries : Nat) : Bool × Nat :=
  wait_for_db_loop probe 1 retries

/-- Gate logic of `main` (lines 129-135): ingestion is reached only when all
three configuration lists are non-empty and `wait_for_db` returned true;
otherwise `main` returns before any fetch or insert. -/
def main_reaches_ingestion (filter_ids : List (String × Int))
    (regions resolutions : List String) (probe : Nat → Bool) (retries : Nat) : Bool :=
  if filter_ids.isEmpty || regions.isEmpty || resolutions.isEmpty then false
  else (wait_for_db probe retries).fst

/-- A committed row of the `energy_timeseries` table (the surrogate `id`
column carries no information and is omitted; physical row order is the
list order). -/
structure Row where
  filter_label : String
  filter_id : Int
  region : String
  resolution : String
  timestamp : Int
  value : Option Rat
deriving Repr, DecidableEq

/-- The composite key of the UNIQUE constraint
`(filter_id, region, resolution, timestamp)` (line 94). -/
structure RowKey where
  filter_id : Int
  region : String
  resolution : String
  timestamp : Int
deriving Repr, DecidableEq

def Row.key (r : Row) : RowKey :=
  RowKey.mk r.filter_id r.region r.resolution r.timestamp

/-- Effect of one `INSERT ... ON CONFLICT (filter_id, region, resolution,
timestamp) DO UPDATE SET value = EXCLUDED.value, filter_label =
EXCLUDED.filter_label` (lines 102-110): if a row with the same composite key
exists, overwrite its `value` and `filter_label` in place; otherwise append
a new row. -/
def upsertRow : List Row → Row → List Row
  | [], r => [r]
  | s :: rest, r =>
      if s.key = r.key then
        Row.mk r.filter_label s.filter_id s.region s.resolution s.timestamp
          r.value :: rest
      else
        s :: upsertRow rest r

/-- Upserting a whole list of rows in order (the loop of lines 101-111 acting
on the table data; transaction boundaries are modelled separately below). -/
def upsertAll (t : List Row) (rs : List Row) : List Row :=
  rs.foldl upsertRow t

/-- One normalized record as bound into the SQL statement: the values of the
"timestamp" and "value" keys after database typing (BIGINT and nullable
FLOAT columns). -/
structure DbEntry where
  timestamp : Int
  value : Option Rat
deriving Repr, DecidableEq

/-- The row that one loop iteration of `insert_data_into_db` writes for
record `e` of a batch with the given combination parameters (line 109). -/
def rowOf (filter_label : String) (filter_id : Int) (region resolution : String)
    (e : DbEntry) : Row :=
  Row.mk filter_label filter_id region resolution e.timestamp e.value

/-- Table-level effect of one completed `insert_data_into_db` call
(lines 74-116): every record of the batch is upserted, in order, with the
call's combination parameters. -/
def insert_data_into_db (t : List Row) (timeseries_data : List DbEntry)
    (filter_label : String) (filter_id : Int) (region resolution : String) :
    List Row :=
  upsertAll t (timeseries_data.map (rowOf filter_label filter_id region resolution))

/-- The arguments of one `insert_data_into_db` call made by the driver loop. -/
structure BatchCall where
  data : List DbEntry
  filter_label : String
  filter_id : Int
  region : String
  resolution : String
deriving Repr, DecidableEq

/-- A run of the writer: a sequence of completed `insert_data_into_db` calls
starting from some table state. -/
def runBatches (t : List Row) (bs : List BatchCall) : List Row :=
  bs.foldl
    (fun acc b =>
      insert_data_into_db acc b.data b.filter_label b.filter_id b.region
        b.resolution)
    t

/-- The keys of the committed rows, in physical order. -/
def tableKeys (t : List Row) : List RowKey :=
  t.map Row.key

/-- Statements issued by `insert_data_into_db`, as far as the committed state
is concerned. -/
inductive Stmt where
  | createTable
  | upsertStmt : Row → Stmt
  | commit
deriving Repr

/-- Database state during a batch: the committed table and the current
transaction view.  Uncommitted work is lost on a crash. -/
structure DbState where
  committed : List Row
  txn : List Row
deriving Repr, DecidableEq

/-- Semantics of one statement.  `CREATE TABLE IF NOT EXISTS` never changes
committed row data (the table already exists after the first run); an upsert
statement changes only the transaction view; `conn.commit()` publishes the
transaction view. -/
def stepStmt (s : DbState) : Stmt → DbState
  | Stmt.createTable => s
  | Stmt.upsertStmt r => DbState.mk s.committed (upsertRow s.txn r)
  | Stmt.commit => DbState.mk s.txn s.txn

def runStmts (s : DbState) (l : List Stmt) : DbState :=
  l.foldl stepStmt s

/-- The exact statement/commit sequence of `insert_data_into_db`:
`CREATE TABLE` then `conn.commit()` (line 97), one upsert per record with no
commit inside the loop (lines 101-111), then a single `conn.commit()`
(line 113). -/
def batchStmts (b : BatchCall) : List Stmt :=
  Stmt.createTable :: Stmt.commit ::
    (b.data.map (fun e =>
      Stmt.upsertStmt (rowOf b.filter_label b.filter_id b.region b.resolution e))
      ++ [Stmt.commit])

/-- Committed table left behind if the process crashes after the first `k`
upsert statements of a batch have executed (and before any later statement):
the prefix of the trace up to and including those `k` upserts is what ran. -/
def crashAfter (t : List Row) (b : BatchCall) (k : Nat) : List Row :=
  (runStmts (DbState.mk t t)
    (Stmt.createTable :: Stmt.commit ::
      ((b.data.take k).map (fun e =>
        Stmt.upsertStmt
          (rowOf b.filter_label b.filter_id b.region b.resolution e))))).committed

end EnergyIngestion

namespace EnergyIngestion

lemma updRow_key (s r : Row) :
    (Row.mk r.filter_label s.filter_id s.region s.resolution s.timestamp
      r.value).key = s.key := rfl

lemma upd_eq_of_key_eq {s r : Row} (h : s.key = r.key) :
    Row.mk r.filter_label s.filter_id s.region s.resolution s.timestamp
      r.value = r := by
  simp only [Row.key, RowKey.mk.injEq] at h
  obtain ⟨e1, e2, e3, e4⟩ := h
  rw [e1, e2, e3, e4]

lemma tableKeys_nil : tableKeys [] = [] := rfl

lemma tableKeys_cons (s : Row) (t : List Row) :
    tableKeys (s :: t) = s.key :: tableKeys t := rfl

lemma upsertRow_key_mem (t : List Row) (r : Row) :
    r.key ∈ tableKeys (upsertRow t r) := by
  induction t with
  | nil => simp [upsertRow, tableKeys]
  | cons s rest ih =>
      by_cases h1 : s.key = r.key
      · simp [upsertRow, h1, tableKeys_cons, updRow_key]
      · simp only [upsertRow, if_neg h1, tableKeys_cons, List.mem_cons]
        exact Or.inr ih

lemma upsertRow_keys_mono (t : List Row) (r : Row) {k : RowKey}
    (h : k ∈ tableKeys t) : k ∈ tableKeys (upsertRow t r) := by
  induction t with
  | nil => simp [tableKeys] at h
  | cons s rest ih =>
      by_cases h1 : s.key = r.key
      · simp only [upsertRow, if_pos h1, tableKeys_cons, updRow_key,
          List.mem_cons] at h ⊢
        exact h
      · simp only [upsertRow, if_neg h1, tableKeys_cons, List.mem_cons] at h ⊢
        rcases h with h | h
        · exact Or.inl h
        · exact Or.inr (ih h)

lemma upsertAll_nil (t : List Row) : upsertAll t [] = t := rfl

lemma upsertAll_cons (t : List Row) (r : Row) (rs : List Row) :
    upsertAll t (r :: rs) = upsertAll (upsertRow t r) rs := rfl

lemma upsertAll_keys_mono (rs : List Row) : ∀ (t : List Row) (k : RowKey),
    k ∈ tableKeys t → k ∈ tableKeys (upsertAll t rs) := by
  induction rs with
  | nil => intro t k h; exact h
  | cons d ds ih => intro t k h; exact ih _ _ (upsertRow_keys_mono t d h)

lemma upsertRow_absorb (t : List Row) {r r0 : Row} (h : r0.key = r.key) :
    upsertRow (upsertRow t r) r0 = upsertRow t r0 := by
  induction t with
  | nil =>
      simp only [upsertRow, if_pos h.symm]
      rw [upd_eq_of_key_eq h.symm]
  | cons s rest ih =>
      by_cases h1 : s.key = r.key
      · have h2 : s.key = r0.key := h1.trans h.symm
        simp only [upsertRow, if_pos h1, if_pos h2, updRow_key]
      · have h2 : ¬ s.key = r0.key := fun hc => h1 (hc.trans h)
        simp only [upsertRow, if_neg h1, if_neg h2]
        rw [ih]

lemma upsertRow_comm (t : List Row) {r r0 : Row}
    (hmem : r.key ∈ tableKeys t) (hne : r0.key ≠ r.key) :
    upsertRow (upsertRow t r) r0 = upsertRow (upsertRow t r0) r := by
  induction t with
  | nil => simp [tableKeys] at hmem
  | cons s rest ih =>
      by_cases h1 : s.key = r.key
      · have h2 : ¬ s.key = r0.key := fun hc => hne (hc.symm.trans h1)
        simp only [upsertRow, if_pos h1, if_neg h2, updRow_key]
      · by_cases h2 : s.key = r0.key
        · simp only [upsertRow, if_neg h1, if_pos h2, updRow_key]
        · have hmem' : r.key ∈ tableKeys rest := by
            simp only [tableKeys_cons, List.mem_cons] at hmem
            rcases hmem with hmem | hmem
            · exact absurd hmem.symm h1
            · exact hmem
          simp only [upsertRow, if_neg h1, if_neg h2]
          rw [ih hmem']

lemma upsertAll_dup (rs : List Row) : ∀ (t : List Row) (r : Row),
    r.key ∈ tableKeys t → (∃ r0 ∈ rs, r0.key = r.key) →
    upsertAll (upsertRow t r) rs = upsertAll t rs := by
  induction rs with
  | nil => intro t r _ hex; simp at hex
  | cons d ds ih =>
      intro t r hmem hex
      by_cases hd : d.key = r.key
      · rw [upsertAll_cons, upsertAll_cons, upsertRow_absorb t hd]
      · obtain ⟨r0, hr0, hk⟩ := hex
        rcases List.mem_cons.mp hr0 with rfl | hr0
        · exact absurd hk hd
        · rw [upsertAll_cons, upsertAll_cons, upsertRow_comm t hmem hd]
          exact ih (upsertRow t d) r (upsertRow_keys_mono t d hmem) ⟨r0, hr0, hk⟩

lemma upsertAll_push (rs : List Row) : ∀ (t : List Row) (r : Row),
    r.key ∈ tableKeys t → (∀ r0 ∈ rs, r0.key ≠ r.key) →
    upsertAll (upsertRow t r) rs = upsertRow (upsertAll t rs) r := by
  induction rs with
  | nil => intro t r _ _; rfl
  | cons d ds ih =>
      intro t r hmem hall
      have hd : d.key ≠ r.key := hall d (List.mem_cons_self d ds)
      rw [upsertAll_cons, upsertAll_cons, upsertRow_comm t hmem hd]
      exact ih (upsertRow t d) r (upsertRow_keys_mono t d hmem)
        (fun r0 h => hall r0 (List.mem_cons_of_mem d h))

lemma upsertAll_idem (rs : List Row) :
    ∀ t : List Row, upsertAll (upsertAll t rs) rs = upsertAll t rs := by
  induction rs with
  | nil => intro t; rfl
  | cons d ds ih =>
      intro t
      rw [upsertAll_cons, upsertAll_cons]
      have hmem : d.key ∈ tableKeys (upsertAll (upsertRow t d) ds) :=
        upsertAll_keys_mono ds _ _ (upsertRow_key_mem t d)
      by_cases hex : ∃ r0 ∈ ds, r0.key = d.key
      · rw [upsertAll_dup ds _ d hmem hex]
        exact ih (upsertRow t d)
      · push_neg at hex
        rw [upsertAll_push ds _ d hmem hex, ih (upsertRow t d),
          ← upsertAll_push ds (upsertRow t d) d (upsertRow_key_mem t d) hex,
          upsertRow_absorb t rfl]

end EnergyIngestion

namespace EnergyIngestion

/-- First committed row holding key `k` (what a reader of the table sees for
that composite key). -/
def lookupRow (t : List Row) (k : RowKey) : Option Row :=
  t.find? (fun s => decide (s.key = k))

lemma upsertRow_tableKeys_of_mem (t : List Row) (r : Row)
    (h : r.key ∈ tableKeys t) :
    tableKeys (upsertRow t r) = tableKeys t := by
  induction t with
  | nil => simp [tableKeys] at h
  | cons s rest ih =>
      by_cases h1 : s.key = r.key
      · simp only [upsertRow, if_pos h1, tableKeys_cons, updRow_key]
      · simp only [tableKeys_cons, List.mem_cons] at h
        rcases h with h | h
        · exact absurd h.symm h1
        · simp only [upsertRow, if_neg h1, tableKeys_cons, ih h]

lemma upsertRow_tableKeys_of_not_mem (t : List Row) (r : Row)
    (h : r.key ∉ tableKeys t) :
    tableKeys (upsertRow t r) = tableKeys t ++ [r.key] := by
  induction t with
  | nil => simp [upsertRow, tableKeys]
  | cons s rest ih =>
      simp only [tableKeys_cons, List.mem_cons] at h
      push_neg at h
      obtain ⟨h1, h2⟩ := h
      have h1' : ¬ s.key = r.key := fun hc => h1 hc.symm
      simp only [upsertRow, if_neg h1', tableKeys_cons, ih h2,
        List.cons_append]

lemma upsertRow_nodup (t : List Row) (r : Row)
    (h : (tableKeys t).Nodup) : (tableKeys (upsertRow t r)).Nodup := by
  by_cases hmem : r.key ∈ tableKeys t
  · rw [upsertRow_tableKeys_of_mem t r hmem]; exact h
  · rw [upsertRow_tableKeys_of_not_mem t r hmem]
    simp only [List.nodup_append, List.nodup_cons, List.not_mem_nil,
      not_false_iff, List.nodup_nil, and_true, true_and]
    exact ⟨h, fun k hk => by
      simp only [List.mem_singleton]
      exact fun hc => hmem (hc ▸ hk)⟩

lemma upsertAll_nodup (rs : List Row) : ∀ t : List Row,
    (tableKeys t).Nodup → (tableKeys (upsertAll t rs)).Nodup := by
  induction rs with
  | nil => intro t h; exact h
  | cons d ds ih => intro t h; exact ih _ (upsertRow_nodup t d h)

lemma runBatches_nodup (bs : List BatchCall) : ∀ t : List Row,
    (tableKeys t).Nodup → (tableKeys (runBatches t bs)).Nodup := by
  induction bs with
  | nil => intro t h; exact h
  | cons b rest ih =>
      intro t h
      exact ih _ (upsertAll_nodup _ t h)

lemma upsertRow_length_of_mem (t : List Row) (r : Row)
    (h : r.key ∈ tableKeys t) :
    (upsertRow t r).length = t.length := by
  induction t with
  | nil => simp [tableKeys] at h
  | cons s rest ih =>
      by_cases h1 : s.key = r.key
      · simp only [upsertRow, if_pos h1, List.length_cons]
      · simp only [tableKeys_cons, List.mem_cons] at h
        rcases h with h | h
        · exact absurd h.symm h1
        · simp only [upsertRow, if_neg h1, List.length_cons, ih h]

lemma upsertRow_lookup_of_mem (t : List Row) (r : Row)
    (h : r.key ∈ tableKeys t) :
    lookupRow (upsertRow t r) r.key = some r := by
  induction t with
  | nil => simp [tableKeys] at h
  | cons s rest ih =>
      by_cases h1 : s.key = r.key
      · simp only [upsertRow, if_pos h1, upd_eq_of_key_eq h1, lookupRow]
        rw [List.find?_cons_of_pos _ (by simp)]
      · simp only [tableKeys_cons, List.mem_cons] at h
        rcases h with h | h
        · exact absurd h.symm h1
        · simp only [upsertRow, if_neg h1, lookupRow]
          rw [List.find?_cons_of_neg _ (by simp [h1])]
          exact ih h

/-- Claim C1.  Upsert idempotence: for every batch of normalized records and
every combination `(filter_label, filter_id, region, resolution)`, running
`insert_data_into_db` twice on the same record set from the same starting
table leaves the table (row count and values) identical to running it once:
re-ingestion converges and never duplicates rows. -/
theorem insert_data_into_db_idempotent :
    ∀ (t : List Row) (data : List DbEntry) (lbl : String) (fid : Int)
      (reg res : String),
      insert_data_into_db (insert_data_into_db t data lbl fid reg res) data
          lbl fid reg res =
        insert_data_into_db t data lbl fid reg res := by
  intro t data lbl fid reg res
  exact upsertAll_idem (data.map (rowOf lbl fid reg res)) t

/-- Claim C2.  Uniqueness invariant: after any sequence of writer batches
starting from table creation (the empty table), no two committed rows share
the composite key `(filter_id, region, resolution, timestamp)`; and an
upsert whose key already exists keeps the row count unchanged and leaves
the conflicting row overwritten with the new `value` and `filter_label`
(the full new row), rather than creating a new row. -/
theorem upsert_uniqueness :
    (∀ bs : List BatchCall, (tableKeys (runBatches [] bs)).Nodup) ∧
    (∀ (t : List Row) (r : Row), r.key ∈ tableKeys t →
      (upsertRow t r).length = t.length ∧
      lookupRow (upsertRow t r) r.key = some r) := by
  constructor
  · intro bs
    exact runBatches_nodup bs [] (by simp [tableKeys])
  · intro t r h
    exact ⟨upsertRow_length_of_mem t r h, upsertRow_lookup_of_mem t r h⟩

/-- Witness for C2 at a concrete table and row: the key of the new row is
already present, the row count is preserved, and the stored row now carries
the new label and value. -/
theorem upsert_uniqueness_witness :
    (Row.mk "New" 1223 "DE" "hour" 100 (some 2)).key ∈
        tableKeys [Row.mk "Old" 1223 "DE" "hour" 100 (some 1)] ∧
    (tableKeys (runBatches []
        [BatchCall.mk [DbEntry.mk 100 (some 1), DbEntry.mk 100 (some 2)]
          "Old" 1223 "DE" "hour"])).Nodup ∧
    (upsertRow [Row.mk "Old" 1223 "DE" "hour" 100 (some 1)]
        (Row.mk "New" 1223 "DE" "hour" 100 (some 2))).length = 1 ∧
    lookupRow
        (upsertRow [Row.mk "Old" 1223 "DE" "hour" 100 (some 1)]
          (Row.mk "New" 1223 "DE" "hour" 100 (some 2)))
        (Row.mk "New" 1223 "DE" "hour" 100 (some 2)).key =
      some (Row.mk "New" 1223 "DE" "hour" 100 (some 2)) := by
  refine ⟨by decide, upsert_uniqueness.1 _, ?_, ?_⟩
  · exact (upsert_uniqueness.2 [Row.mk "Old" 1223 "DE" "hour" 100 (some 1)]
      (Row.mk "New" 1223 "DE" "hour" 100 (some 2)) (by decide)).1
  · exact (upsert_uniqueness.2 [Row.mk "Old" 1223 "DE" "hour" 100 (some 1)]
      (Row.mk "New" 1223 "DE" "hour" 100 (some 2)) (by decide)).2

end EnergyIngestion

namespace EnergyIngestion

lemma runStmts_cons (s : DbState) (x : Stmt) (l : List Stmt) :
    runStmts s (x :: l) = runStmts (stepStmt s x) l := rfl

lemma runStmts_append (s : DbState) (l1 l2 : List Stmt) :
    runStmts s (l1 ++ l2) = runStmts (runStmts s l1) l2 := by
  simp [runStmts]

lemma runStmts_upserts (f : DbEntry → Row) (es : List DbEntry) :
    ∀ s : DbState,
      runStmts s (es.map (fun e => Stmt.upsertStmt (f e))) =
        DbState.mk s.committed (upsertAll s.txn (es.map f)) := by
  induction es with
  | nil => intro s; rfl
  | cons e rest ih =>
      intro s
      rw [List.map_cons, runStmts_cons, ih]
      rfl

def cexBatch : BatchCall :=
  BatchCall.mk [DbEntry.mk 100 (some 1), DbEntry.mk 200 (some 2)]
    "Stromerzeugung" 1223 "DE" "hour"

/-- Counterexample to claim C4 as stated: in `insert_data_into_db` the only
commits are after `CREATE TABLE` and after the whole loop, so a crash after
the first upsert of a two-record batch leaves zero rows of the batch
committed — not the one row that per-statement commit semantics would
leave. -/
theorem per_statement_commit_cex :
    crashAfter [] cexBatch 1 = [] ∧
    insert_data_into_db [] (cexBatch.data.take 1) "Stromerzeugung" 1223 "DE"
        "hour" =
      [Row.mk "Stromerzeugung" 1223 "DE" "hour" 100 (some 1)] ∧
    crashAfter [] cexBatch 1 ≠
      insert_data_into_db [] (cexBatch.data.take 1) "Stromerzeugung" 1223
        "DE" "hour" := by
  refine ⟨rfl, rfl, ?_⟩
  intro h
  exact List.noConfusion h

/-- Claim C4 amended.  One write batch runs as a single transaction: table
creation is committed first, then every record upsert executes with no
commit inside the loop, and one final commit publishes the whole batch.
Hence a crash after any number `k` of executed upserts leaves the committed
table exactly as it was before the batch (previously committed rows intact,
none of the batch's rows present), while a completed call commits the full
upserted batch. -/
theorem single_commit_per_batch :
    ∀ (t : List Row) (b : BatchCall) (k : Nat),
      crashAfter t b k = t ∧
      (runStmts (DbState.mk t t) (batchStmts b)).committed =
        insert_data_into_db t b.data b.filter_label b.filter_id b.region
          b.resolution := by
  intro t b k
  constructor
  · rw [crashAfter, runStmts_cons, runStmts_cons]
    have e1 : stepStmt (stepStmt (DbState.mk t t) Stmt.createTable)
        Stmt.commit = DbState.mk t t := rfl
    rw [e1, runStmts_upserts]
  · rw [batchStmts, runStmts_cons, runStmts_cons]
    have e1 : stepStmt (stepStmt (DbState.mk t t) Stmt.createTable)
        Stmt.commit = DbState.mk t t := rfl
    rw [e1, runStmts_append, runStmts_upserts]
    rfl

/-- Counterexample to claim C3 as stated: a transport-level failure (or a
JSON decode failure) is not caught by the `except HTTPError` handler, so the
fetchers raise instead of returning an empty sequence. -/
theorem fetch_transport_raises_cex :
    fetch_timestamps HttpOutcome.transportFailure =
        Except.error PyErr.transport ∧
    fetch_timeseries HttpOutcome.transportFailure =
        Except.error PyErr.transport ∧
    ¬ fetch_timestamps HttpOutcome.transportFailure =
        Except.ok (PyVal.list []) := by
  refine ⟨rfl, rfl, ?_⟩
  intro h
  exact Except.noConfusion h

/-- Claim C3 amended.  Only an HTTP-level (4xx/5xx) error raised by
`raise_for_status` is caught: both fetchers then log and return an empty
list, so that combination/timestamp is skipped.  A transport failure from
`requests.get` and a malformed (undecodable) JSON body are not caught and
propagate as exceptions out of the fetchers, aborting the run. -/
theorem fetch_error_handling :
    fetch_timestamps HttpOutcome.httpError = Except.ok (PyVal.list []) ∧
    fetch_timeseries HttpOutcome.httpError = Except.ok (PyVal.list []) ∧
    fetch_timestamps HttpOutcome.transportFailure =
        Except.error PyErr.transport ∧
    fetch_timeseries HttpOutcome.transportFailure =
        Except.error PyErr.transport ∧
    fetch_timestamps HttpOutcome.badJson = Except.error PyErr.jsonDecode ∧
    fetch_timeseries HttpOutcome.badJson = Except.error PyErr.jsonDecode :=
  ⟨rfl, rfl, rfl, rfl, rfl, rfl⟩

end EnergyIngestion

namespace EnergyIngestion

/-- Counterexample to claim C5 as stated: with mode "specific" and the
configured timestamp 0 (present in the configuration but falsy in Python),
the code falls back to the newest timestamp instead of selecting 0. -/
theorem select_specific_zero_cex :
    select_timestamps "specific" (some 0) [100, 200, 300] = some [300] ∧
    ¬ select_timestamps "specific" (some 0) [100, 200, 300] = some [0] := by
  constructor
  · rfl
  · decide

/-- Claim C5 amended.  For every non-empty timestamp index: mode "newest"
selects exactly the last element; mode "all" selects every timestamp in
order; mode "specific" selects exactly the configured `specific_timestamp`
when it is present and truthy (nonzero), and falls back to the last element
of the index (with a warning) when it is absent — or when it equals the
falsy integer 0. -/
theorem select_timestamps_modes :
    ∀ (ts : List Int) (tl : Int) (sp : Option Int), ts.getLast? = some tl →
      select_timestamps "newest" sp ts = some [tl] ∧
      select_timestamps "all" sp ts = some ts ∧
      (∀ v : Int, v ≠ 0 → select_timestamps "specific" (some v) ts = some [v]) ∧
      select_timestamps "specific" none ts = some [tl] ∧
      select_timestamps "specific" (some 0) ts = some [tl] := by
  intro ts tl sp h
  refine ⟨?_, ?_, ?_, ?_, ?_⟩
  · rw [select_timestamps.eq_def, if_neg (by decide), if_neg (by decide), h]
    rfl
  · rw [select_timestamps.eq_def, if_pos rfl]
  · intro v hv
    rw [select_timestamps.eq_def, if_neg (by decide), if_pos rfl]
    simp [hv]
  · rw [select_timestamps.eq_def, if_neg (by decide), if_pos rfl, h]
    rfl
  · rw [select_timestamps.eq_def, if_neg (by decide), if_pos rfl]
    simp [h]

/-- Witness for the amended C5 at the index of the spec's example. -/
theorem select_timestamps_modes_witness :
    ([100, 200, 300] : List Int).getLast? = some 300 ∧
    (200 : Int) ≠ 0 ∧
    select_timestamps "newest" (some 200) [100, 200, 300] = some [300] ∧
    select_timestamps "all" (some 200) [100, 200, 300] = some [100, 200, 300] ∧
    select_timestamps "specific" (some 200) [100, 200, 300] = some [200] ∧
    select_timestamps "specific" none [100, 200, 300] = some [300] ∧
    select_timestamps "specific" (some 0) [100, 200, 300] = some [300] := by
  have h := select_timestamps_modes [100, 200, 300] 300 (some 200) rfl
  have h2 := select_timestamps_modes [100, 200, 300] 300 none rfl
  exact ⟨rfl, by decide, h.1, h.2.1, h.2.2.1 200 (by decide), h2.2.2.2.1,
    h.2.2.2.2⟩

/-- Claim C10.  Default timestamp mode: any `TIMESTAMP_MODE` string other
than "all" and "specific" — misspelled or arbitrary, not only the absent
key's default "newest" — selects exactly the last element of the (non-empty)
timestamp index. -/
theorem select_timestamps_default_mode :
    ∀ (mode : String) (sp : Option Int) (ts : List Int) (tl : Int),
      mode ≠ "all" → mode ≠ "specific" → ts.getLast? = some tl →
      select_timestamps mode sp ts = some [tl] := by
  intro mode sp ts tl h1 h2 h
  rw [select_timestamps.eq_def, if_neg h1, if_neg h2, h]
  rfl

/-- Witness for C10 with a misspelled mode string. -/
theorem select_timestamps_default_mode_witness :
    ("newet" : String) ≠ "all" ∧ ("newet" : String) ≠ "specific" ∧
    ([100, 200, 300] : List Int).getLast? = some 300 ∧
    select_timestamps "newet" (some 5) [100, 200, 300] = some [300] :=
  ⟨by decide, by decide, rfl,
    select_timestamps_default_mode "newet" (some 5) [100, 200, 300] 300
      (by decide) (by decide) rfl⟩

end EnergyIngestion

namespace EnergyIngestion

lemma prepare_data_go (raw : List PyVal) :
    ∀ acc : List PreparedEntry,
      raw.foldl
        (fun prepared p =>
          match p with
          | PyVal.list (a :: b :: _) => prepared ++ [PreparedEntry.mk a b]
          | _ => prepared)
        acc =
      acc ++ raw.filterMap
        (fun p =>
          match p with
          | PyVal.list (a :: b :: _) => some (PreparedEntry.mk a b)
          | _ => none) := by
  induction raw with
  | nil => intro acc; simp
  | cons p ps ih =>
      intro acc
      rw [List.foldl_cons, List.filterMap_cons]
      cases p with
      | int n => simpa using ih acc
      | float q => simpa using ih acc
      | str s => simpa using ih acc
      | pynone => simpa using ih acc
      | bool b => simpa using ih acc
      | dict d => simpa using ih acc
      | list xs =>
          cases xs with
          | nil => simpa using ih acc
          | cons a ys =>
              cases ys with
              | nil => simpa using ih acc
              | cons b zs =>
                  rw [show (match PyVal.list (a :: b :: zs) with
                    | PyVal.list (a :: b :: _) =>
                        acc ++ [PreparedEntry.mk a b]
                    | _ => acc) = acc ++ [PreparedEntry.mk a b] from rfl,
                    ih (acc ++ [PreparedEntry.mk a b])]
                  simp

/-- Claim C6.  Normalizer filtering: `prepare_data` keeps exactly the
entries that are list/tuple sequences of length at least 2, maps each to a
record of its first two elements, preserves order, and drops everything
else; on the spec's example it returns exactly the two records stated. -/
theorem prepare_data_filtering :
    prepare_data
        [PyVal.list [PyVal.int 10, PyVal.float (3 / 2)],
         PyVal.list [PyVal.int 20],
         PyVal.list [PyVal.str "x", PyVal.str "y", PyVal.str "z"]] =
      [PreparedEntry.mk (PyVal.int 10) (PyVal.float (3 / 2)),
       PreparedEntry.mk (PyVal.str "x") (PyVal.str "y")] ∧
    ∀ raw : List PyVal,
      prepare_data raw =
        raw.filterMap
          (fun p =>
            match p with
            | PyVal.list (a :: b :: _) => some (PreparedEntry.mk a b)
            | _ => none) := by
  constructor
  · rfl
  · intro raw
    rw [prepare_data]
    simpa using prepare_data_go raw []

/-- Claim C7.  Dual-shape JSON tolerance on the success path: a bare-array
body is returned unchanged; an object body yields its "timestamps"
(resp. "series") field, or the empty list when the field is absent. -/
theorem fetch_shape_tolerance :
    (∀ xs : List PyVal,
        fetch_timestamps (HttpOutcome.success (PyVal.list xs)) =
            Except.ok (PyVal.list xs) ∧
        fetch_timeseries (HttpOutcome.success (PyVal.list xs)) =
            Except.ok (PyVal.list xs)) ∧
    (∀ (d : List (String × PyVal)) (kv : String × PyVal),
        d.find? (fun p => p.fst == "timestamps") = some kv →
        fetch_timestamps (HttpOutcome.success (PyVal.dict d)) =
          Except.ok kv.snd) ∧
    (∀ d : List (String × PyVal),
        d.find? (fun p => p.fst == "timestamps") = none →
        fetch_timestamps (HttpOutcome.success (PyVal.dict d)) =
          Except.ok (PyVal.list [])) ∧
    (∀ (d : List (String × PyVal)) (kv : String × PyVal),
        d.find? (fun p => p.fst == "series") = some kv →
        fetch_timeseries (HttpOutcome.success (PyVal.dict d)) =
          Except.ok kv.snd) ∧
    (∀ d : List (String × PyVal),
        d.find? (fun p => p.fst == "series") = none →
        fetch_timeseries (HttpOutcome.success (PyVal.dict d)) =
          Except.ok (PyVal.list [])) := by
  refine ⟨fun xs => ⟨rfl, rfl⟩, ?_, ?_, ?_, ?_⟩
  · intro d kv h
    simp [fetch_timestamps, extractField, pyGet, h]
  · intro d h
    simp [fetch_timestamps, extractField, pyGet, h]
  · intro d kv h
    simp [fetch_timeseries, extractField, pyGet, h]
  · intro d h
    simp [fetch_timeseries, extractField, pyGet, h]

/-- Witness for C7 at concrete bodies, matching the spec's `[1,2,3]`
examples. -/
theorem fetch_shape_tolerance_witness :
    ([(("timestamps" : String),
        PyVal.list [PyVal.int 1, PyVal.int 2, PyVal.int 3])].find?
          (fun p => p.fst == "timestamps") =
        some ("timestamps", PyVal.list [PyVal.int 1, PyVal.int 2, PyVal.int 3])) ∧
    ([(("other" : String), PyVal.int 0)].find?
        (fun p => p.fst == "timestamps") = none) ∧
    fetch_timestamps
        (HttpOutcome.success (PyVal.list [PyVal.int 1, PyVal.int 2, PyVal.int 3])) =
      Except.ok (PyVal.list [PyVal.int 1, PyVal.int 2, PyVal.int 3]) ∧
    fetch_timestamps
        (HttpOutcome.success (PyVal.dict
          [("timestamps", PyVal.list [PyVal.int 1, PyVal.int 2, PyVal.int 3])])) =
      Except.ok (PyVal.list [PyVal.int 1, PyVal.int 2, PyVal.int 3]) ∧
    fetch_timestamps (HttpOutcome.success (PyVal.dict [("other", PyVal.int 0)])) =
      Except.ok (PyVal.list []) ∧
    fetch_timeseries
        (HttpOutcome.success (PyVal.dict [("series", PyVal.int 7)])) =
      Except.ok (PyVal.int 7) ∧
    fetch_timeseries (HttpOutcome.success (PyVal.dict [("other", PyVal.int 0)])) =
      Except.ok (PyVal.list []) :=
  ⟨rfl, rfl, (fetch_shape_tolerance.1 _).1,
    fetch_shape_tolerance.2.1
      [("timestamps", PyVal.list [PyVal.int 1, PyVal.int 2, PyVal.int 3])]
      ("timestamps", PyVal.list [PyVal.int 1, PyVal.int 2, PyVal.int 3]) rfl,
    fetch_shape_tolerance.2.2.1 [("other", PyVal.int 0)] rfl,
    fetch_shape_tolerance.2.2.2.1 [("series", PyVal.int 7)]
      ("series", PyVal.int 7) rfl,
    fetch_shape_tolerance.2.2.2.2 [("other", PyVal.int 0)] rfl⟩

/-- Claim C8 evaluated at a concrete input: the timestamp-index URL is the
well-formed https URL of the spec, but the series URL is built with the
scheme "hhttps" (doubled letter in the source's f-string), so it is not a
well-formed https URL — `requests.get` rejects it before any network
activity. -/
theorem timeseries_url_scheme_bug :
    timestamp_url 1223 "DE" "hour" =
      "https://smard.api.proxy.bund.dev/app/chart_data/1223/DE/index_hour.json" ∧
    "https://".data.isPrefixOf (timestamp_url 1223 "DE" "hour").data = true ∧
    timeseries_url 1223 "DE" "hour" 1609459199999 =
      "hhttps://smard.api.proxy.bund.dev/app/chart_data/1223/DE/1223_DE_hour_1609459199999.json" ∧
    "https://".data.isPrefixOf
        (timeseries_url 1223 "DE" "hour" 1609459199999).data = false := by
  refine ⟨rfl, ?_, rfl, ?_⟩
  · rw [show timestamp_url 1223 "DE" "hour" =
      "https://smard.api.proxy.bund.dev/app/chart_data/1223/DE/index_hour.json"
      from rfl]
    decide
  · rw [show timeseries_url 1223 "DE" "hour" 1609459199999 =
      "hhttps://smard.api.proxy.bund.dev/app/chart_data/1223/DE/1223_DE_hour_1609459199999.json"
      from rfl]
    decide

lemma wait_for_db_loop_all_fail (probe : Nat → Bool)
    (hall : ∀ i, probe i = false) :
    ∀ n a : Nat, wait_for_db_loop probe a n = (false, n) := by
  intro n
  induction n with
  | zero => intro a; rfl
  | succ m ih =>
      intro a
      simp only [wait_for_db_loop, hall a, Bool.false_eq_true, if_false,
        ih (a + 1)]

lemma wait_for_db_loop_success (probe : Nat → Bool) :
    ∀ n a k : Nat, k < n → probe (a + k) = true →
      (∀ d, d < k → probe (a + d) = false) →
      wait_for_db_loop probe a n = (true, k + 1) := by
  intro n
  induction n with
  | zero => intro a k hk _ _; exact absurd hk (Nat.not_lt_zero k)
  | succ m ih =>
      intro a k hk hs hprev
      cases k with
      | zero =>
          have h0 : probe a = true := by simpa using hs
          simp [wait_for_db_loop, h0]
      | succ k' =>
          have h0 : probe a = false := by
            simpa using hprev 0 (Nat.succ_pos k')
          have hs' : probe (a + 1 + k') = true := by
            have e : a + 1 + k' = a + (k' + 1) := by omega
            rw [e]; exact hs
          have hprev' : ∀ d, d < k' → probe (a + 1 + d) = false := by
            intro d hd
            have e : a + 1 + d = a + (d + 1) := by omega
            rw [e]; exact hprev (d + 1) (by omega)
          have hrec := ih (a + 1) k' (by omega) hs' hprev'
          simp [wait_for_db_loop, h0, hrec]

/-- Claim C9.  Readiness bound: with at least one retry allowed, a store
that never accepts a connection causes exactly `retries` attempts and a
false result, and `main` then performs no ingestion; if some attempt
succeeds, the function returns true right after the first successful probe,
having made exactly that many attempts. -/
theorem wait_for_db_readiness :
    (∀ (probe : Nat → Bool) (retries : Nat), 1 ≤ retries →
      (∀ i, probe i = false) →
      wait_for_db probe retries = (false, retries) ∧
      ∀ (fs : List (String × Int)) (rs os : List String),
        main_reaches_ingestion fs rs os probe retries = false) ∧
    (∀ (probe : Nat → Bool) (retries j : Nat), 1 ≤ j → j ≤ retries →
      probe j = true → (∀ i, 1 ≤ i → i < j → probe i = false) →
      wait_for_db probe retries = (true, j)) := by
  constructor
  · intro probe retries h1 hall
    have hw : wait_for_db probe retries = (false, retries) :=
      wait_for_db_loop_all_fail probe hall retries 1
    refine ⟨hw, ?_⟩
    intro fs rs os
    rw [main_reaches_ingestion]
    by_cases hc : (fs.isEmpty || rs.isEmpty || os.isEmpty) = true
    · rw [if_pos hc]
    · rw [if_neg hc, hw]
  · intro probe retries j hj1 hjr hpj hprev
    have e : j - 1 < retries := by omega
    have hs' : probe (1 + (j - 1)) = true := by
      have e2 : 1 + (j - 1) = j := by omega
      rw [e2]; exact hpj
    have hprev' : ∀ d, d < j - 1 → probe (1 + d) = false := by
      intro d hd
      exact hprev (1 + d) (by omega) (by omega)
    have h := wait_for_db_loop_success probe retries 1 (j - 1) e hs' hprev'
    rw [wait_for_db, h]
    have e3 : j - 1 + 1 = j := by omega
    rw [e3]

/-- Witness for C9: a store that never becomes reachable with three retries
makes exactly three attempts, returns false, and blocks ingestion; a store
first reachable on attempt 2 returns true after exactly 2 attempts. -/
theorem wait_for_db_readiness_witness :
    (1 ≤ 3 ∧ ∀ i : Nat, (fun _ : Nat => false) i = false) ∧
    wait_for_db (fun _ : Nat => false) 3 = (false, 3) ∧
    main_reaches_ingestion [("Label", 1223)] ["DE"] ["hour"]
        (fun _ : Nat => false) 3 = false ∧
    wait_for_db (fun i : Nat => decide (i = 2)) 3 = (true, 2) := by
  have h1 := wait_for_db_readiness.1 (fun _ : Nat => false) 3 (by decide)
    (fun i => rfl)
  have h2 := wait_for_db_readiness.2 (fun i : Nat => decide (i = 2)) 3 2
    (by decide) (by decide) (by decide)
    (fun i hi1 hi2 => by
      have e : i = 1 := by omega
      subst e
      rfl)
  exact ⟨⟨by decide, fun i => rfl⟩, h1.1, h1.2 _ _ _, h2⟩

end EnergyIngestion
